import Mathlib

/-!
Verification development for the `__torch_function__` dispatch fragment of
`torch/_dynamo/variables/torch_function.py`.

The Python module is shallowly embedded as follows.

* Python class objects (tensor-subclass types) are identified by `Nat` type
  identifiers; `Env.typeName` gives a type's declared `__name__` and the
  identifier itself plays the role of the CPython object identity `id(cls)`.
* A `TFVar` models a `TensorWithTFOverrideVariable`: its `class_type`
  (`typeId`), its stored `torch_function_fn` (`handlerId`) and whether
  `self.source` is set (`hasSource`).
* Arguments are `ArgTree`s — nested pytree containers whose leaves are either
  a `TFVar` or an ordinary tracked value — and `pytree.tree_leaves` is
  `treeLeaves`.
* The surrounding tracer (handler inlining, `TensorVariable` base behaviour,
  Python attribute lookup on classes, the deny-list computed from
  `torch.overrides`) is an opaque collaborator, abstracted as fields of `Env`.
* Calls that raise `unimplemented(...)` are modelled as `Except`-style error
  outcomes carrying the corresponding `DispatchError`.
-/

/-- Model of a `TensorWithTFOverrideVariable`: the wrapped tensor subclass
instance carrying its `class_type` and its `__torch_function__` handler. -/
structure TFVar where
  typeId : Nat
  handlerId : Nat
  hasSource : Bool
deriving DecidableEq

/-- A flattened pytree leaf: either a torch-function override variable or any
other `VariableTracker` (abstracted to a numeric code). -/
inductive Leaf where
  | tf (v : TFVar)
  | plain (v : Nat)
deriving DecidableEq

/-- A pytree of arguments: `pytree.tree_leaves` flattens arbitrary nesting of
sequence/mapping containers down to `Leaf` values. -/
inductive ArgTree where
  | leaf (l : Leaf)
  | node (children : List ArgTree)

mutual

/-- Model of `pytree.tree_leaves` on a single tree. -/
def treeLeaves : ArgTree → List Leaf
  | .leaf l => [l]
  | .node cs => treeLeavesList cs

/-- Model of `pytree.tree_leaves` on a list of trees (a sequence container). -/
def treeLeavesList : List ArgTree → List Leaf
  | [] => []
  | t :: ts => treeLeaves t ++ treeLeavesList ts

end

/-- `pytree.tree_leaves(args) + pytree.tree_leaves(kwargs)`: positional
arguments flattened, then the keyword mapping's values flattened in insertion
order. -/
def allLeaves (args : List ArgTree) (kwargs : List (String × ArgTree)) : List Leaf :=
  treeLeavesList args ++ treeLeavesList (kwargs.map (·.2))

/-- Is a leaf a `TensorWithTFOverrideVariable`? (`isinstance` test). -/
def Leaf.isTF : Leaf → Bool
  | .tf _ => true
  | .plain _ => false

/-- Project the override variable out of a leaf, when it is one. -/
def Leaf.asTF : Leaf → Option TFVar
  | .tf v => some v
  | .plain _ => none

/-- A function identifier handed to a handler: either the unbound attribute
value itself, or (for attribute access) its `__get__` getter entry point. -/
inductive FnRef where
  | plain (attr : Nat)
  | getter (attr : Nat)
deriving DecidableEq

/-- Result of invoking a `__torch_function__` handler: the
`ConstantVariable(NotImplemented)` sentinel, or an ordinary value. -/
inductive TFRes where
  | sentinel
  | val (v : Nat)
deriving DecidableEq

/-- The typed failure outcomes of this fragment (`unimplemented(...)` calls and
an uncaught `AttributeError` from a static lookup). -/
inductive DispatchError where
  | unsupportedDispatch (fn : FnRef) (args : List ArgTree)
      (kwargs : List (String × ArgTree))
  | unsupportedAttribute (name : String)
  | overriddenAttributeUnsupported (name : String)
  | attributeError (name : String)

/-- The environment: every external collaborator of the module.
`enabled` is `tx.output.torch_function_enabled`; `banned` is the configured
deny-list `banned_attrs` (computed outside this module from
`torch.overrides.get_default_nowrap_functions`); `tensorAttr` is
`getattr(torch.Tensor, name)` (`none` = `AttributeError`, so
`hasattr(torch.Tensor, name)` is `isSome`); `staticAttr cls name` is
`inspect.getattr_static(cls, name)`; `sub a b` is "`a` is a strict subclass of
`b`"; `handler` is the inlined invocation of a stored `torch_function_fn`
(`tx.inline_user_function_return`); `baseGetattr`/`baseCallMethod` are the
base `TensorVariable` attribute/method behaviour used on the bypass paths. -/
structure Env where
  enabled : Bool
  banned : List String
  tensorAttr : String → Option Nat
  staticAttr : Nat → String → Option Nat
  typeName : Nat → String
  sub : Nat → Nat → Bool
  handler : Nat → Nat → FnRef → List Nat → List ArgTree →
      List (String × ArgTree) → TFRes
  baseGetattr : String → Nat
  baseCallMethod : String → List ArgTree → List (String × ArgTree) → Nat

/-- Model of `_is_attr_overidden` (spelling as in the source): compare the
static lookup on the variable's `python_type()` with `getattr(torch.Tensor,
name)`; an `AttributeError` from either lookup is swallowed and `False` is
returned. -/
def is_attr_overidden (env : Env) (classType : Nat) (name : String) : Bool :=
  match env.staticAttr classType name with
  | none => false
  | some attrVal =>
    match env.tensorAttr name with
    | none => false
    | some baseVal => attrVal != baseVal

/-- Model of `can_dispatch_torch_function`: the feature flag must be enabled
and some flattened leaf of the positional or keyword arguments must be a
`TensorWithTFOverrideVariable`. -/
def can_dispatch_torch_function (env : Env) (args : List ArgTree)
    (kwargs : List (String × ArgTree)) : Bool :=
  if env.enabled then
    (allLeaves args kwargs).any Leaf.isTF
  else
    false

/-- Modelled from the spec: `_get_overloaded_args` lives in `torch.overrides`,
which is not part of this excerpt.  Step 1 of the spec's ordering algorithm:
walk the relevant arguments left to right and keep each argument whose runtime
type has not been seen yet (first-occurrence order, dedup by type). -/
def firstOccurAux (seen : List Nat) : List TFVar → List TFVar
  | [] => []
  | a :: rest =>
    if seen.contains a.typeId then firstOccurAux seen rest
    else a :: firstOccurAux (a.typeId :: seen) rest

/-- First-occurrence deduplication by runtime type (spec §4.1 step 1). -/
def firstOccur (l : List TFVar) : List TFVar :=
  firstOccurAux [] l

/-- Modelled from the spec: one step of the subclass-precedence post-pass.
`insertSub sub x l` places `x` immediately before the first element of `l` of
which `x`'s type is a strict subclass, and at the end otherwise.  Inserting
every element of the working list this way reaches the fixed point demanded by
spec §4.1 step 2: no strict subclass remains after any of its ancestors. -/
def insertSub (sub : Nat → Nat → Bool) (x : TFVar) : List TFVar → List TFVar
  | [] => [x]
  | a :: rest =>
    if sub x.typeId a.typeId then x :: a :: rest
    else a :: insertSub sub x rest

/-- Modelled from the spec: the full OverloadOrder computation of
`_get_overloaded_args` — first-occurrence dedup by type, then the
subclass-precedence post-pass. -/
def overloadOrder (env : Env) (relevant : List TFVar) : List TFVar :=
  (firstOccur relevant).foldl (fun acc x => insertSub env.sub x acc) []

/-- The `TensorWithTFOverrideVariable` leaves of a call site, in flattened
order (`[arg for arg in all_args if isinstance(arg, TensorWithTFOverrideVariable)]`). -/
def relevantLeaves (args : List ArgTree) (kwargs : List (String × ArgTree)) :
    List TFVar :=
  (allLeaves args kwargs).filterMap Leaf.asTF

/-- OverloadOrder of a call site. -/
def overloadOrderOf (env : Env) (args : List ArgTree)
    (kwargs : List (String × ArgTree)) : List TFVar :=
  overloadOrder env (relevantLeaves args kwargs)

/-- The types tuple handed to every handler:
`TupleVariable([arg.subclass_type_var() for arg in overloaded_args])`. -/
def dispatchTypes (env : Env) (args : List ArgTree)
    (kwargs : List (String × ArgTree)) : List Nat :=
  (overloadOrderOf env args kwargs).map (·.typeId)

/-- The result of one handler invocation inside the dispatch loop
(`arg.call_torch_function(tx, fn, types, args, kwargs)` inlined through
`call_torch_function`). -/
def handlerRes (env : Env) (fn : FnRef) (types : List Nat)
    (args : List ArgTree) (kwargs : List (String × ArgTree)) (a : TFVar) :
    TFRes :=
  env.handler a.handlerId a.typeId fn types args kwargs

/-- The loop of `dispatch_torch_function`: invoke each overloaded argument's
handler in order; stop at the first non-sentinel result.  Returns the result
(if any handler produced one) together with the list of arguments whose
handlers were actually invoked. -/
def dispatchLoop (env : Env) (fn : FnRef) (types : List Nat)
    (args : List ArgTree) (kwargs : List (String × ArgTree)) :
    List TFVar → Option Nat × List TFVar
  | [] => (none, [])
  | a :: rest =>
    match handlerRes env fn types args kwargs a with
    | .val v => (some v, [a])
    | .sentinel =>
      let r := dispatchLoop env fn types args kwargs rest
      (r.1, a :: r.2)

/-- Model of `dispatch_torch_function`: compute the overloaded arguments and
their types tuple, run the handler loop, and fail with the
`unimplemented(...)` message (carrying `fn`, `args` and `kwargs`) when every
handler returned the `NotImplemented` sentinel.  The second component records
which handlers were invoked. -/
def dispatch_torch_function (env : Env) (fn : FnRef) (args : List ArgTree)
    (kwargs : List (String × ArgTree)) :
    Except DispatchError Nat × List TFVar :=
  let order := overloadOrderOf env args kwargs
  let r := dispatchLoop env fn (dispatchTypes env args kwargs) args kwargs order
  match r.1 with
  | some v => (.ok v, r.2)
  | none => (.error (.unsupportedDispatch fn args kwargs), r.2)

/-- A direct handler invocation, as produced by `call_torch_function`
(`tf_args = (torch_function_type, fn, types, TupleVariable(list(args)))`). -/
structure TFCall where
  handlerId : Nat
  clsType : Nat
  fn : FnRef
  types : List Nat
  args : List ArgTree
  kwargs : List (String × ArgTree)

/-- A call site handed to the dispatch resolver by `call_method`. -/
structure CallSite where
  fn : FnRef
  args : List ArgTree
  kwargs : List (String × ArgTree)

/-- Observable outcome of the attribute/method trampolines: a hard-stop error,
delegation to the base `TensorVariable` behaviour, a direct
`call_torch_function` handler invocation, or a call site handed to
`dispatch_torch_function`. -/
inductive TrampOut where
  | err (e : DispatchError)
  | base (v : Nat)
  | tfcall (c : TFCall)
  | dispatch (c : CallSite)

/-- Model of `TensorWithTFOverrideVariable.var_getattr`:
deny-list/presence guardrail, overridden-attribute guardrail, then (when the
feature flag is enabled) a direct handler invocation through the attribute's
`__get__` entry point, and otherwise delegation to `super().var_getattr`. -/
def var_getattr (env : Env) (self : TFVar) (name : String) : TrampOut :=
  if env.banned.contains name || !(env.tensorAttr name).isSome then
    .err (.unsupportedAttribute name)
  else if is_attr_overidden env self.typeId name then
    .err (.overriddenAttributeUnsupported name)
  else if env.enabled then
    if self.hasSource then
      match env.staticAttr self.typeId name with
      | some v =>
        .tfcall ⟨self.handlerId, self.typeId, .getter v, [self.typeId],
          [.leaf (.tf self)], []⟩
      | none => .err (.attributeError name)
    else
      match env.tensorAttr name with
      | some v =>
        .tfcall ⟨self.handlerId, self.typeId, .getter v, [self.typeId],
          [.leaf (.tf self)], []⟩
      | none => .err (.attributeError name)
  else
    .base (env.baseGetattr name)

/-- Model of `TensorWithTFOverrideVariable.call_method`: when the feature flag
is enabled, the overridden-method guardrail followed by static resolution of
the method on the tracked type (plain `getattr(torch.Tensor, name)` in the
sourceless case) and hand-off of `fn, [self] + args, kwargs` to
`dispatch_torch_function`; when disabled, delegation to the base tensor
behaviour. -/
def call_method (env : Env) (self : TFVar) (name : String)
    (args : List ArgTree) (kwargs : List (String × ArgTree)) : TrampOut :=
  if env.enabled then
    if is_attr_overidden env self.typeId name then
      .err (.overriddenAttributeUnsupported name)
    else
      match (if self.hasSource then env.staticAttr self.typeId name
             else env.tensorAttr name) with
      | some v => .dispatch ⟨.plain v, .leaf (.tf self) :: args, kwargs⟩
      | none => .err (.attributeError name)
  else
    .base (env.baseCallMethod name args kwargs)

/-- Decimal rendering of a natural number, as Python's `str` produces for the
(nonnegative) `id(self.class_type)` interpolated by the f-string. -/
def decRepr (n : Nat) : String :=
  ⟨if n = 0 then ['0'] else ((Nat.digits 10 n).map Nat.digitChar).reverse⟩

/-- Model of `TensorWithTFOverrideVariable.global_mangled_class_name`:
the f-string `__subclass_{class_type.__name__}_{id(class_type)}`. -/
def global_mangled_class_name (env : Env) (t : Nat) : String :=
  "__subclass_" ++ env.typeName t ++ "_" ++ decRepr t

/-- Model of the registration step of `from_tensor_var`: install the subclass
type under its mangled name into the tracer's global scope unless the name is
already present. -/
def registerSubclassType (env : Env) (scope : List (String × Nat)) (t : Nat) :
    List (String × Nat) :=
  if scope.any (fun p => p.1 == global_mangled_class_name env t) then scope
  else (global_mangled_class_name env t, t) :: scope

/-! ### Concrete fixtures used by witnesses and counterexamples -/

/-- A two-type hierarchy: type `1` is a strict subclass of type `0`. -/
def subW : Nat → Nat → Bool := fun a b => a == 1 && b == 0

/-- `getattr(torch.Tensor, ·)` fixture: `m` and `data` and `ov` exist on the
base tensor type, everything else raises `AttributeError`. -/
def tAttrW : String → Option Nat := fun n =>
  if n = "m" then some 5 else if n = "data" then some 9
  else if n = "ov" then some 3 else if n = "bov" then some 11 else none

/-- `inspect.getattr_static(cls, ·)` fixture: `m` agrees with the base tensor
implementation, `ov` differs from it (an override), `ghost` is absent. -/
def sAttrW : Nat → String → Option Nat := fun _ n =>
  if n = "m" then some 5 else if n = "ov" then some 4
  else if n = "data" then some 9 else if n = "bov" then some 12 else none

/-- Environment fixture with the feature flag enabled: `data` is on the
deny-list, handler `0` declines with the sentinel, handler `1` accepts. -/
def envW : Env :=
  { enabled := true
    banned := ["data", "bov"]
    tensorAttr := tAttrW
    staticAttr := sAttrW
    typeName := fun _ => "T"
    sub := subW
    handler := fun hid _ _ _ _ _ => if hid == 0 then TFRes.sentinel else TFRes.val 7
    baseGetattr := fun _ => 0
    baseCallMethod := fun _ _ _ => 0 }

/-- The same environment with the override-dispatch feature flag disabled. -/
def envD : Env := { envW with enabled := false }

/-- An override variable of type `0` whose handler declines (sentinel). -/
def varA : TFVar := ⟨0, 0, true⟩

/-- An override variable of type `1` (strict subclass of type `0`) whose
handler accepts. -/
def varB : TFVar := ⟨1, 1, true⟩

/-- An override variable of type `2`, unrelated to types `0` and `1`. -/
def varBu : TFVar := ⟨2, 0, true⟩

/-- A second override variable of type `0` (same runtime type as `varA`). -/
def varA2 : TFVar := ⟨0, 3, false⟩

/-! ### Helper lemmas -/

/-- The trace component of the resolver equals the trace of its loop. -/
theorem dispatch_snd (env : Env) (fn : FnRef) (args : List ArgTree)
    (kwargs : List (String × ArgTree)) :
    (dispatch_torch_function env fn args kwargs).2 =
      (dispatchLoop env fn (dispatchTypes env args kwargs) args kwargs
        (overloadOrderOf env args kwargs)).2 := by
  unfold dispatch_torch_function
  cases h : (dispatchLoop env fn (dispatchTypes env args kwargs) args kwargs
      (overloadOrderOf env args kwargs)).1 <;> simp [h]

/-- Full characterization of the dispatch loop: the invoked handlers are the
longest sentinel-returning prefix plus the first accepting handler (if any);
the loop yields `none` exactly when every handler declined, and otherwise the
first accepting handler's value. -/
theorem dispatchLoop_spec (env : Env) (fn : FnRef) (types : List Nat)
    (args : List ArgTree) (kwargs : List (String × ArgTree)) (l : List TFVar) :
    (dispatchLoop env fn types args kwargs l).2 =
      l.takeWhile (fun a => decide (handlerRes env fn types args kwargs a = .sentinel)) ++
        (l.dropWhile (fun a => decide (handlerRes env fn types args kwargs a = .sentinel))).take 1 ∧
    (l.dropWhile (fun a => decide (handlerRes env fn types args kwargs a = .sentinel)) = [] →
      (dispatchLoop env fn types args kwargs l).1 = none) ∧
    (∀ a rest,
      l.dropWhile (fun a => decide (handlerRes env fn types args kwargs a = .sentinel)) = a :: rest →
      ∃ v, handlerRes env fn types args kwargs a = .val v ∧
        (dispatchLoop env fn types args kwargs l).1 = some v) := by
  set p : TFVar → Bool :=
    fun a => decide (handlerRes env fn types args kwargs a = TFRes.sentinel) with hp
  induction l with
  | nil => simp [dispatchLoop]
  | cons a l ih =>
    cases h : handlerRes env fn types args kwargs a with
    | sentinel =>
      have hpa : p a = true := by simp [hp, h]
      rw [List.takeWhile_cons, List.dropWhile_cons, if_pos hpa, if_pos hpa]
      refine ⟨?_, ?_, ?_⟩
      · simp only [dispatchLoop, h]
        simpa using ih.1
      · intro hd
        simp only [dispatchLoop, h]
        simpa using ih.2.1 hd
      · intro b rest hd
        obtain ⟨v, hv, hres⟩ := ih.2.2 b rest hd
        refine ⟨v, hv, ?_⟩
        simp only [dispatchLoop, h]
        simpa using hres
    | val v =>
      have hpa : ¬ p a = true := by simp [hp, h]
      rw [List.takeWhile_cons, List.dropWhile_cons, if_neg hpa, if_neg hpa]
      refine ⟨?_, ?_, ?_⟩
      · simp only [dispatchLoop, h]
        simp
      · intro hd
        simp at hd
      · intro b rest hd
        obtain ⟨rfl, rfl⟩ : a = b ∧ l = rest := by
          injection hd with h1 h2
          exact ⟨h1, h2⟩
        refine ⟨v, h, ?_⟩
        simp only [dispatchLoop, h]

/-! ### C1 -/

/-- C1: handlers are invoked in OverloadOrder sequence (the invocation trace is
the longest sentinel-returning prefix of OverloadOrder plus the first
accepting handler); if every handler in OverloadOrder returns the
`NotImplemented` sentinel the resolver fails with `UnsupportedDispatch`
carrying the function identifier and both argument collections, after invoking
every handler; otherwise the first handler whose result is not the sentinel
has its result returned and no later handler is invoked. -/
theorem claim_C1 (env : Env) (fn : FnRef) (args : List ArgTree)
    (kwargs : List (String × ArgTree)) :
    (dispatch_torch_function env fn args kwargs).2 =
      (overloadOrderOf env args kwargs).takeWhile
          (fun a => decide (handlerRes env fn (dispatchTypes env args kwargs)
            args kwargs a = .sentinel)) ++
        ((overloadOrderOf env args kwargs).dropWhile
          (fun a => decide (handlerRes env fn (dispatchTypes env args kwargs)
            args kwargs a = .sentinel))).take 1 ∧
    ((overloadOrderOf env args kwargs).dropWhile
        (fun a => decide (handlerRes env fn (dispatchTypes env args kwargs)
          args kwargs a = .sentinel)) = [] →
      dispatch_torch_function env fn args kwargs =
        (.error (.unsupportedDispatch fn args kwargs),
          overloadOrderOf env args kwargs)) ∧
    (∀ a rest,
      (overloadOrderOf env args kwargs).dropWhile
        (fun a => decide (handlerRes env fn (dispatchTypes env args kwargs)
          args kwargs a = .sentinel)) = a :: rest →
      ∃ v, handlerRes env fn (dispatchTypes env args kwargs) args kwargs a
          = .val v ∧
        (dispatch_torch_function env fn args kwargs).1 = .ok v) := by
  obtain ⟨h1, h2, h3⟩ := dispatchLoop_spec env fn (dispatchTypes env args kwargs)
    args kwargs (overloadOrderOf env args kwargs)
  refine ⟨?_, ?_, ?_⟩
  · rw [dispatch_snd]
    exact h1
  · intro hd
    have hnone := h2 hd
    have htw := @List.takeWhile_append_dropWhile TFVar
      (fun a => decide (handlerRes env fn (dispatchTypes env args kwargs)
        args kwargs a = TFRes.sentinel))
      (overloadOrderOf env args kwargs)
    rw [hd, List.append_nil] at htw
    have htr : (dispatchLoop env fn (dispatchTypes env args kwargs) args kwargs
        (overloadOrderOf env args kwargs)).2 = overloadOrderOf env args kwargs := by
      rw [h1, hd, htw]
      simp
    unfold dispatch_torch_function
    simp [hnone, htr]
  · intro a rest hd
    obtain ⟨v, hv, hsome⟩ := h3 a rest hd
    refine ⟨v, hv, ?_⟩
    unfold dispatch_torch_function
    simp [hsome]

/-- Witness for C1 at a concrete call site: with override variables of types
`0` and `1` (`1 ≺ 0`), OverloadOrder is `[varB, varA]`; `varB`'s handler
accepts immediately, so the resolver returns its value. -/
theorem claim_C1_witness :
    ((overloadOrderOf envW [.leaf (.tf varA), .leaf (.tf varB)] []).dropWhile
      (fun a => decide (handlerRes envW (.plain 5)
        (dispatchTypes envW [.leaf (.tf varA), .leaf (.tf varB)] [])
        [.leaf (.tf varA), .leaf (.tf varB)] [] a = .sentinel)) = varB :: [varA]) ∧
    (∃ v, handlerRes envW (.plain 5)
        (dispatchTypes envW [.leaf (.tf varA), .leaf (.tf varB)] [])
        [.leaf (.tf varA), .leaf (.tf varB)] [] varB = .val v ∧
      (dispatch_torch_function envW (.plain 5)
        [.leaf (.tf varA), .leaf (.tf varB)] []).1 = .ok v) := by
  have hd : (overloadOrderOf envW [.leaf (.tf varA), .leaf (.tf varB)] []).dropWhile
      (fun a => decide (handlerRes envW (.plain 5)
        (dispatchTypes envW [.leaf (.tf varA), .leaf (.tf varB)] [])
        [.leaf (.tf varA), .leaf (.tf varB)] [] a = .sentinel)) = varB :: [varA] := by
    rfl
  exact ⟨hd, (claim_C1 envW (.plain 5) [.leaf (.tf varA), .leaf (.tf varB)] []).2.2
    varB [varA] hd⟩

/-! ### Ordering lemmas (OverloadOrder) -/

/-- Membership in an `insertSub` result. -/
theorem mem_insertSub {sub : Nat → Nat → Bool} {x y : TFVar} {l : List TFVar} :
    y ∈ insertSub sub x l ↔ y = x ∨ y ∈ l := by
  induction l with
  | nil => simp [insertSub]
  | cons a l ih =>
    by_cases h : sub x.typeId a.typeId = true
    · simp only [insertSub, if_pos h, List.mem_cons]
    · simp only [insertSub, if_neg h, List.mem_cons, ih]
      tauto

/-- `insertSub` permutes its input (it just places `x` somewhere). -/
theorem insertSub_perm (sub : Nat → Nat → Bool) (x : TFVar) (l : List TFVar) :
    (insertSub sub x l).Perm (x :: l) := by
  induction l with
  | nil => simp [insertSub]
  | cons a l ih =>
    by_cases h : sub x.typeId a.typeId = true
    · simp [insertSub, h]
    · simp only [insertSub, if_neg h]
      exact (ih.cons a).trans (List.Perm.swap x a l)

/-- `insertSub` preserves the "no strict subclass after an ancestor" invariant
when the strict-subclass relation is transitive and asymmetric. -/
theorem insertSub_pairwise {sub : Nat → Nat → Bool}
    (hTrans : ∀ a b c, sub a b = true → sub b c = true → sub a c = true)
    (hAsym : ∀ a b, sub a b = true → sub b a = false)
    {x : TFVar} {l : List TFVar}
    (hl : l.Pairwise (fun a b => sub b.typeId a.typeId = false)) :
    (insertSub sub x l).Pairwise (fun a b => sub b.typeId a.typeId = false) := by
  induction l with
  | nil => simp [insertSub]
  | cons a l ih =>
    obtain ⟨ha, hl'⟩ := List.pairwise_cons.mp hl
    by_cases h : sub x.typeId a.typeId = true
    · simp only [insertSub, if_pos h]
      refine List.pairwise_cons.mpr ⟨?_, hl⟩
      intro b hb
      rcases List.mem_cons.mp hb with rfl | hb
      · exact hAsym _ _ h
      · cases hbx : sub b.typeId x.typeId with
        | false => rfl
        | true =>
          have h2 := hTrans _ _ _ hbx h
          rw [ha b hb] at h2
          exact Bool.noConfusion h2
    · simp only [insertSub, if_neg h]
      refine List.pairwise_cons.mpr ⟨?_, ih hl'⟩
      intro b hb
      rcases mem_insertSub.mp hb with rfl | hb
      · cases hxa : sub b.typeId a.typeId with
        | false => rfl
        | true => exact absurd hxa h
      · exact ha b hb

/-- The subclass-precedence post-pass preserves the invariant along the fold. -/
theorem foldl_insertSub_pairwise {sub : Nat → Nat → Bool}
    (hTrans : ∀ a b c, sub a b = true → sub b c = true → sub a c = true)
    (hAsym : ∀ a b, sub a b = true → sub b a = false) :
    ∀ (l acc : List TFVar),
      acc.Pairwise (fun a b => sub b.typeId a.typeId = false) →
      (l.foldl (fun acc x => insertSub sub x acc) acc).Pairwise
        (fun a b => sub b.typeId a.typeId = false) := by
  intro l
  induction l with
  | nil => intro acc h; exact h
  | cons x l ih =>
    intro acc h
    exact ih _ (insertSub_pairwise hTrans hAsym h)

/-- The post-pass fold permutes the working list. -/
theorem foldl_insertSub_perm (sub : Nat → Nat → Bool) :
    ∀ (l acc : List TFVar),
      (l.foldl (fun acc x => insertSub sub x acc) acc).Perm (l ++ acc) := by
  intro l
  induction l with
  | nil => intro acc; simp
  | cons x l ih =>
    intro acc
    have h1 := ih (insertSub sub x acc)
    have h2 : (l ++ insertSub sub x acc).Perm (l ++ (x :: acc)) :=
      List.Perm.append_left l (insertSub_perm sub x acc)
    have h3 : (l ++ (x :: acc)).Perm (x :: (l ++ acc)) := List.perm_middle
    exact h1.trans (h2.trans h3)

/-- Types listed by `firstOccurAux` are distinct and avoid the `seen` set. -/
theorem firstOccurAux_nodup : ∀ (seen : List Nat) (l : List TFVar),
    ((firstOccurAux seen l).map (·.typeId)).Nodup ∧
    ∀ t ∈ (firstOccurAux seen l).map (·.typeId), t ∉ seen := by
  intro seen l
  induction l generalizing seen with
  | nil => simp [firstOccurAux]
  | cons a l ih =>
    by_cases h : seen.contains a.typeId = true
    · rw [firstOccurAux, if_pos h]
      exact ih seen
    · obtain ⟨ih1, ih2⟩ := ih (a.typeId :: seen)
      have hmemseen : a.typeId ∉ seen := by
        intro hmem
        exact h (List.elem_eq_true_of_mem hmem)
      simp only [firstOccurAux, if_neg h, List.map_cons, List.nodup_cons]
      refine ⟨⟨?_, ih1⟩, ?_⟩
      · intro hmem
        exact ih2 _ hmem (List.mem_cons_self _ _)
      · intro t ht
        rcases List.mem_cons.mp ht with rfl | ht
        · exact hmemseen
        · intro hts
          exact ih2 t ht (List.mem_cons_of_mem _ hts)

/-- Members of `firstOccurAux` come from the input list. -/
theorem mem_firstOccurAux : ∀ {seen : List Nat} {l : List TFVar} {x : TFVar},
    x ∈ firstOccurAux seen l → x ∈ l := by
  intro seen l
  induction l generalizing seen with
  | nil => intro x hx; simp [firstOccurAux] at hx
  | cons a l ih =>
    intro x hx
    by_cases h : seen.contains a.typeId = true
    · rw [firstOccurAux, if_pos h] at hx
      exact List.mem_cons_of_mem _ (ih hx)
    · rw [firstOccurAux, if_neg h] at hx
      rcases List.mem_cons.mp hx with rfl | hx
      · exact List.mem_cons_self _ _
      · exact List.mem_cons_of_mem _ (ih hx)

/-- When `x`'s type is unrelated to everything in `l`, `insertSub` appends. -/
theorem insertSub_of_unrelated {sub : Nat → Nat → Bool} {x : TFVar}
    {l : List TFVar} (h : ∀ a ∈ l, sub x.typeId a.typeId = false) :
    insertSub sub x l = l ++ [x] := by
  induction l with
  | nil => rfl
  | cons a l ih =>
    have ha := h a (List.mem_cons_self _ _)
    rw [insertSub, if_neg (by simp [ha]), ih fun b hb => h b (List.mem_cons_of_mem _ hb)]
    rfl

/-- When every pair of processed types is unrelated, the post-pass fold keeps
the working list in its original order. -/
theorem foldl_insertSub_of_unrelated {sub : Nat → Nat → Bool} :
    ∀ (l acc : List TFVar),
      (∀ x ∈ l, ∀ a, a ∈ acc ∨ a ∈ l → sub x.typeId a.typeId = false) →
      l.foldl (fun acc x => insertSub sub x acc) acc = acc ++ l := by
  intro l
  induction l with
  | nil => intro acc _; simp
  | cons x l ih =>
    intro acc h
    have hx : insertSub sub x acc = acc ++ [x] :=
      insertSub_of_unrelated fun a ha =>
        h x (List.mem_cons_self _ _) a (Or.inl ha)
    show List.foldl (fun acc x => insertSub sub x acc) (insertSub sub x acc) l
        = acc ++ x :: l
    rw [hx, ih (acc ++ [x]) ?_, List.append_assoc]
    · rfl
    · intro y hy a ha
      refine h y (List.mem_cons_of_mem _ hy) a ?_
      rcases ha with ha | ha
      · rcases List.mem_append.mp ha with ha | ha
        · exact Or.inl ha
        · rcases List.mem_cons.mp ha with rfl | ha
          · exact Or.inr (List.mem_cons_self _ _)
          · simp at ha
      · exact Or.inr (List.mem_cons_of_mem _ ha)

/-! ### C2 -/

/-- C2: when the strict-subclass relation is transitive and asymmetric, every
subclass type precedes each of its ancestor types in OverloadOrder (no later
element's type is a strict subclass of an earlier element's type), and for a
call site whose override leaves are `[a, b]` with `b`'s type a strict subclass
of `a`'s, OverloadOrder is `[b, a]`. -/
theorem claim_C2 (env : Env)
    (hTrans : ∀ a b c, env.sub a b = true → env.sub b c = true →
      env.sub a c = true)
    (hAsym : ∀ a b, env.sub a b = true → env.sub b a = false) :
    (∀ args kwargs, (overloadOrderOf env args kwargs).Pairwise
      (fun a b => env.sub b.typeId a.typeId = false)) ∧
    (∀ args kwargs a b, relevantLeaves args kwargs = [a, b] →
      env.sub b.typeId a.typeId = true →
      overloadOrderOf env args kwargs = [b, a]) := by
  constructor
  · intro args kwargs
    exact foldl_insertSub_pairwise hTrans hAsym _ _ List.Pairwise.nil
  · intro args kwargs a b hrel hsub
    have hne : b.typeId ≠ a.typeId := by
      intro he
      have h1 : env.sub a.typeId a.typeId = true := he ▸ hsub
      have h2 := hAsym _ _ h1
      rw [h1] at h2
      exact Bool.noConfusion h2
    simp [overloadOrderOf, overloadOrder, hrel, firstOccur, firstOccurAux,
      insertSub, hne, hsub]

/-- Witness for C2: the two-type hierarchy `1 ≺ 0` is transitive and
asymmetric, and the general conclusions hold for it. -/
theorem claim_C2_witness :
    ((∀ a b c, envW.sub a b = true → envW.sub b c = true →
        envW.sub a c = true) ∧
      (∀ a b, envW.sub a b = true → envW.sub b a = false)) ∧
    ((∀ args kwargs, (overloadOrderOf envW args kwargs).Pairwise
        (fun a b => envW.sub b.typeId a.typeId = false)) ∧
      (∀ args kwargs a b, relevantLeaves args kwargs = [a, b] →
        envW.sub b.typeId a.typeId = true →
        overloadOrderOf envW args kwargs = [b, a])) := by
  have hT : ∀ a b c, envW.sub a b = true → envW.sub b c = true →
      envW.sub a c = true := by
    intro a b c h1 h2
    simp [envW, subW] at h1 h2
    omega
  have hA : ∀ a b, envW.sub a b = true → envW.sub b a = false := by
    intro a b h
    simp [envW, subW] at h
    obtain ⟨rfl, rfl⟩ := h
    decide
  exact ⟨⟨hT, hA⟩, claim_C2 envW hT hA⟩

/-! ### C3 -/

/-- C3: OverloadOrder never contains duplicate types; a call site with
override leaves of types `[A, B, A]` (`B` neither equal to nor a strict
subclass of `A`) yields `[A, B]`; a call site with exactly one override leaf
yields exactly that leaf; and when all override leaf types are pairwise
unrelated, OverloadOrder is first-occurrence order. -/
theorem claim_C3 (env : Env) :
    (∀ args kwargs, ((overloadOrderOf env args kwargs).map (·.typeId)).Nodup) ∧
    (∀ args kwargs a b a2, relevantLeaves args kwargs = [a, b, a2] →
      a2.typeId = a.typeId → b.typeId ≠ a.typeId →
      env.sub b.typeId a.typeId = false →
      overloadOrderOf env args kwargs = [a, b]) ∧
    (∀ args kwargs x, relevantLeaves args kwargs = [x] →
      overloadOrderOf env args kwargs = [x]) ∧
    (∀ args kwargs,
      (∀ x ∈ relevantLeaves args kwargs, ∀ y ∈ relevantLeaves args kwargs,
        env.sub x.typeId y.typeId = false) →
      overloadOrderOf env args kwargs = firstOccur (relevantLeaves args kwargs)) := by
  refine ⟨?_, ?_, ?_, ?_⟩
  · intro args kwargs
    have hperm : (overloadOrderOf env args kwargs).Perm
        (firstOccur (relevantLeaves args kwargs)) := by
      have h := foldl_insertSub_perm env.sub
        (firstOccur (relevantLeaves args kwargs)) []
      simpa [overloadOrderOf, overloadOrder] using h
    have hnd := (firstOccurAux_nodup [] (relevantLeaves args kwargs)).1
    exact ((hperm.map (·.typeId)).nodup_iff).mpr hnd
  · intro args kwargs a b a2 hrel h2 hne hsub
    simp [overloadOrderOf, overloadOrder, hrel, firstOccur, firstOccurAux,
      insertSub, hne, Ne.symm hne, h2, hsub]
  · intro args kwargs x hrel
    simp [overloadOrderOf, overloadOrder, hrel, firstOccur, firstOccurAux,
      insertSub]
  · intro args kwargs h
    have hsubset : ∀ x ∈ firstOccur (relevantLeaves args kwargs),
        x ∈ relevantLeaves args kwargs :=
      fun x hx => mem_firstOccurAux hx
    have hfold := @foldl_insertSub_of_unrelated env.sub
      (firstOccur (relevantLeaves args kwargs)) []
      (fun x hx a ha => by
        rcases ha with ha | ha
        · simp at ha
        · exact h x (hsubset x hx) a (hsubset a ha))
    simpa [overloadOrderOf, overloadOrder] using hfold

/-- Witness for C3 at the `[A, B, A]` shape: leaves of types `[0, 2, 0]` with
`2` unrelated to `0` give OverloadOrder `[varA, varBu]`. -/
theorem claim_C3_witness :
    (relevantLeaves [.leaf (.tf varA), .leaf (.tf varBu), .leaf (.tf varA2)] []
        = [varA, varBu, varA2] ∧
      varA2.typeId = varA.typeId ∧ varBu.typeId ≠ varA.typeId ∧
      envW.sub varBu.typeId varA.typeId = false) ∧
    overloadOrderOf envW
      [.leaf (.tf varA), .leaf (.tf varBu), .leaf (.tf varA2)] [] = [varA, varBu] := by
  have h1 : relevantLeaves
      [.leaf (.tf varA), .leaf (.tf varBu), .leaf (.tf varA2)] []
      = [varA, varBu, varA2] := by rfl
  have h2 : varA2.typeId = varA.typeId := by rfl
  have h3 : varBu.typeId ≠ varA.typeId := by decide
  have h4 : envW.sub varBu.typeId varA.typeId = false := by rfl
  exact ⟨⟨h1, h2, h3, h4⟩,
    (claim_C3 envW).2.1 _ _ varA varBu varA2 h1 h2 h3 h4⟩

/-! ### C4 -/

/-- C4: dispatch is eligible iff the feature flag is enabled and some
flattened leaf is an override variable; with zero override leaves the
resolver reports not eligible and its loop never invokes a handler. -/
theorem claim_C4 (env : Env) :
    (∀ args kwargs, can_dispatch_torch_function env args kwargs = true ↔
      (env.enabled = true ∧ ∃ l ∈ allLeaves args kwargs, l.isTF = true)) ∧
    (∀ fn args kwargs, (∀ l ∈ allLeaves args kwargs, l.isTF = false) →
      can_dispatch_torch_function env args kwargs = false ∧
      (dispatch_torch_function env fn args kwargs).2 = []) := by
  constructor
  · intro args kwargs
    unfold can_dispatch_torch_function
    cases h : env.enabled <;> simp [List.any_eq_true]
  · intro fn args kwargs h
    have hrel : relevantLeaves args kwargs = [] := by
      unfold relevantLeaves
      rw [List.filterMap_eq_nil_iff]
      intro l hl
      have := h l hl
      cases l with
      | tf v => simp [Leaf.isTF] at this
      | plain v => rfl
    constructor
    · have hany : (allLeaves args kwargs).any Leaf.isTF = false := by
        rw [List.any_eq_false]
        intro l hl
        simp [h l hl]
      unfold can_dispatch_torch_function
      cases env.enabled <;> simp [hany]
    · rw [dispatch_snd]
      have : overloadOrderOf env args kwargs = [] := by
        simp [overloadOrderOf, overloadOrder, hrel, firstOccur, firstOccurAux]
      rw [this]
      rfl

/-- Witness for C4: a call site whose leaves are all plain values is not
eligible and the resolver's loop invokes nothing. -/
theorem claim_C4_witness :
    (∀ l ∈ allLeaves [.leaf (.plain 3), .node [.leaf (.plain 4)]]
        [("k", .leaf (.plain 2))], l.isTF = false) ∧
    (can_dispatch_torch_function envW [.leaf (.plain 3), .node [.leaf (.plain 4)]]
        [("k", .leaf (.plain 2))] = false ∧
      (dispatch_torch_function envW (.plain 5)
        [.leaf (.plain 3), .node [.leaf (.plain 4)]]
        [("k", .leaf (.plain 2))]).2 = []) := by
  have h : ∀ l ∈ allLeaves [.leaf (.plain 3), .node [.leaf (.plain 4)]]
      [("k", .leaf (.plain 2))], l.isTF = false := by decide
  exact ⟨h, (claim_C4 envW).2 (.plain 5) _ _ h⟩

/-! ### C7 -/

/-- C7: an attribute access whose name is on the deny-list, or absent from the
base tensor type, fails with `UnsupportedAttribute`, regardless of override
state, the feature flag, or anything else. -/
theorem claim_C7 (env : Env) (self : TFVar) (name : String)
    (h : name ∈ env.banned ∨ env.tensorAttr name = none) :
    var_getattr env self name = .err (.unsupportedAttribute name) := by
  have hc : (env.banned.contains name || !(env.tensorAttr name).isSome) = true := by
    rcases h with h | h
    · simp [h]
    · simp [h]
  unfold var_getattr
  rw [if_pos hc]

/-- Witness for C7: `data` is on the deny-list of `envW` (and is overridden
on nothing, which does not matter). -/
theorem claim_C7_witness :
    ("data" ∈ envW.banned ∨ envW.tensorAttr "data" = none) ∧
    var_getattr envW varA "data" = .err (.unsupportedAttribute "data") := by
  have h : "data" ∈ envW.banned ∨ envW.tensorAttr "data" = none := by
    left
    simp [envW]
  exact ⟨h, claim_C7 envW varA "data" h⟩

/-! ### C10 -/

/-- C10: a name absent (by static lookup) from the tracked value's declared
type, or present there but absent from the base tensor type, is reported as
not overridden (the `AttributeError` is swallowed), and is therefore never
rejected with `OverriddenAttributeUnsupported` by either trampoline. -/
theorem claim_C10 (env : Env) (self : TFVar) (name : String)
    (h : env.staticAttr self.typeId name = none ∨
      ((env.staticAttr self.typeId name).isSome ∧ env.tensorAttr name = none)) :
    is_attr_overidden env self.typeId name = false ∧
    (∀ s, var_getattr env self name ≠ .err (.overriddenAttributeUnsupported s)) ∧
    (∀ args kwargs s, call_method env self name args kwargs ≠
      .err (.overriddenAttributeUnsupported s)) := by
  have hov : is_attr_overidden env self.typeId name = false := by
    unfold is_attr_overidden
    rcases h with h | ⟨h1, h2⟩
    · rw [h]
    · cases hs : env.staticAttr self.typeId name with
      | none => rfl
      | some v => rw [h2]
  refine ⟨hov, ?_, ?_⟩
  · intro s
    simp only [var_getattr, hov]
    split
    · simp
    · split
      · contradiction
      · split
        · split
          · split <;> simp
          · split <;> simp
        · simp
  · intro args kwargs s
    simp only [call_method, hov]
    split
    · split
      · contradiction
      · split <;> simp
    · simp

/-! ### C5 -/

/-- Counterexample to C5 as stated: with the feature flag globally disabled,
accessing the deny-listed attribute `data` on an override variable still fails
with `UnsupportedAttribute` instead of producing the base representation's
result — the attribute trampoline's guardrails run before the flag check. -/
theorem claim_C5_counterexample :
    envD.enabled = false ∧
    var_getattr envD varA "data" = .err (.unsupportedAttribute "data") ∧
    var_getattr envD varA "data" ≠ .base (envD.baseGetattr "data") := by
  refine ⟨rfl, rfl, ?_⟩
  intro h
  have h' : TrampOut.err (.unsupportedAttribute "data") = TrampOut.base 0 := h
  exact TrampOut.noConfusion h'

/-- C5 amended: with the flag disabled the resolver is never eligible and
`call_method` delegates directly to the base behaviour; `var_getattr`
delegates to the base behaviour only for names that pass the deny-list,
presence, and overridden-attribute guardrails (which still apply). -/
theorem claim_C5_amended (env : Env) (hdis : env.enabled = false) :
    (∀ args kwargs, can_dispatch_torch_function env args kwargs = false) ∧
    (∀ self name args kwargs, call_method env self name args kwargs =
      .base (env.baseCallMethod name args kwargs)) ∧
    (∀ self name, env.banned.contains name = false →
      (env.tensorAttr name).isSome = true →
      is_attr_overidden env self.typeId name = false →
      var_getattr env self name = .base (env.baseGetattr name)) := by
  refine ⟨?_, ?_, ?_⟩
  · intro args kwargs
    unfold can_dispatch_torch_function
    rw [hdis]
    rfl
  · intro self name args kwargs
    unfold call_method
    rw [hdis]
    rfl
  · intro self name hb ht hov
    have hb' : name ∉ env.banned := by simpa using hb
    unfold var_getattr
    rw [if_neg (by simp [hb', ht]), if_neg (by simp [hov]),
      if_neg (by simp [hdis])]

/-- Witness for the amended C5 in the disabled environment. -/
theorem claim_C5_amended_witness :
    envD.enabled = false ∧
    ((∀ args kwargs, can_dispatch_torch_function envD args kwargs = false) ∧
      (∀ self name args kwargs, call_method envD self name args kwargs =
        .base (envD.baseCallMethod name args kwargs)) ∧
      (∀ self name, envD.banned.contains name = false →
        (envD.tensorAttr name).isSome = true →
        is_attr_overidden envD self.typeId name = false →
        var_getattr envD self name = .base (envD.baseGetattr name))) := by
  have h : envD.enabled = false := rfl
  exact ⟨h, claim_C5_amended envD h⟩

/-! ### C6 -/

/-- Counterexample to C6 as stated: (a) with the feature flag disabled,
calling the overridden method `ov` delegates to the base behaviour instead of
failing; (b) the overridden *and* deny-listed name `bov` fails with
`UnsupportedAttribute`, not `OverriddenAttributeUnsupported`. -/
theorem claim_C6_counterexample :
    (is_attr_overidden envD varA.typeId "ov" = true ∧
      call_method envD varA "ov" [] [] = .base 0 ∧
      call_method envD varA "ov" [] [] ≠
        .err (.overriddenAttributeUnsupported "ov")) ∧
    (is_attr_overidden envW varA.typeId "bov" = true ∧
      var_getattr envW varA "bov" = .err (.unsupportedAttribute "bov") ∧
      var_getattr envW varA "bov" ≠
        .err (.overriddenAttributeUnsupported "bov")) := by
  refine ⟨⟨rfl, rfl, ?_⟩, rfl, rfl, ?_⟩
  · intro h
    have h' : TrampOut.base 0 =
        TrampOut.err (.overriddenAttributeUnsupported "ov") := h
    exact TrampOut.noConfusion h'
  · intro h
    have h' : DispatchError.unsupportedAttribute "bov" =
        DispatchError.overriddenAttributeUnsupported "bov" := by
      have h'' : TrampOut.err (.unsupportedAttribute "bov") =
          TrampOut.err (.overriddenAttributeUnsupported "bov") := h
      injection h''
    exact DispatchError.noConfusion h'

/-- C6 amended: a name whose static implementation on the tracked type differs
from the base tensor's fails with `OverriddenAttributeUnsupported` — for
attribute access provided the name is not deny-listed, and for method calls
provided the feature flag is enabled. -/
theorem claim_C6_amended (env : Env) (self : TFVar) (name : String)
    (hov : is_attr_overidden env self.typeId name = true) :
    (env.banned.contains name = false →
      var_getattr env self name = .err (.overriddenAttributeUnsupported name)) ∧
    (env.enabled = true → ∀ args kwargs,
      call_method env self name args kwargs =
        .err (.overriddenAttributeUnsupported name)) := by
  have htens : (env.tensorAttr name).isSome = true := by
    unfold is_attr_overidden at hov
    cases hs : env.staticAttr self.typeId name with
    | none => rw [hs] at hov; exact Bool.noConfusion hov
    | some v =>
      rw [hs] at hov
      cases ht : env.tensorAttr name with
      | none => rw [ht] at hov; exact Bool.noConfusion hov
      | some w => simp [ht]
  constructor
  · intro hb
    have hb' : name ∉ env.banned := by simpa using hb
    unfold var_getattr
    rw [if_neg (by simp [hb', htens]), if_pos hov]
  · intro hen args kwargs
    unfold call_method
    rw [if_pos hen, if_pos hov]

/-- Witness for the amended C6 at the overridden name `ov`. -/
theorem claim_C6_amended_witness :
    is_attr_overidden envW varA.typeId "ov" = true ∧
    ((envW.banned.contains "ov" = false →
      var_getattr envW varA "ov" = .err (.overriddenAttributeUnsupported "ov")) ∧
    (envW.enabled = true → ∀ args kwargs,
      call_method envW varA "ov" args kwargs =
        .err (.overriddenAttributeUnsupported "ov"))) := by
  have h : is_attr_overidden envW varA.typeId "ov" = true := rfl
  exact ⟨h, claim_C6_amended envW varA "ov" h⟩

/-! ### C8 -/

/-- Prepending a leaf tree prepends its leaf to the flattened leaves. -/
theorem allLeaves_cons_leaf (l : Leaf) (args : List ArgTree)
    (kwargs : List (String × ArgTree)) :
    allLeaves (.leaf l :: args) kwargs = l :: allLeaves args kwargs := rfl

/-- Counterexample to C8 as stated: for a trampolined method call whose
argument list contains a second override variable (of subclass type `1`), the
types tuple the resolver computes for the synthetic call has two elements,
`[1, 0]`, not the single-element collection containing the tracked value's
declared type `0`. -/
theorem claim_C8_counterexample :
    call_method envW varA "m" [.leaf (.tf varB)] [] =
      .dispatch ⟨.plain 5, [.leaf (.tf varA), .leaf (.tf varB)], []⟩ ∧
    dispatchTypes envW [.leaf (.tf varA), .leaf (.tf varB)] [] = [1, 0] ∧
    [1, 0] ≠ [varA.typeId] := by
  refine ⟨rfl, rfl, by decide⟩

/-- C8 amended: for a name that passes the guardrails (not deny-listed,
present on the base tensor, same static implementation `v` on the tracked
type), attribute access invokes the handler directly with the base
implementation's getter entry point, the single-element types tuple
`[self.typeId]`, positional arguments `[self]` and no keyword arguments;
a method call hands the resolver the base implementation with the tracked
value prepended to the call-site arguments and the call-site's keyword
arguments, and the types tuple the resolver computes is single-element
whenever the tracked value is the only override leaf. -/
theorem claim_C8_amended (env : Env) (self : TFVar) (name : String) (v : Nat)
    (hen : env.enabled = true)
    (hb : env.banned.contains name = false)
    (ht : env.tensorAttr name = some v)
    (hs : env.staticAttr self.typeId name = some v) :
    var_getattr env self name =
      .tfcall ⟨self.handlerId, self.typeId, .getter v, [self.typeId],
        [.leaf (.tf self)], []⟩ ∧
    (∀ args kwargs, call_method env self name args kwargs =
      .dispatch ⟨.plain v, .leaf (.tf self) :: args, kwargs⟩) ∧
    (∀ args kwargs, (∀ l ∈ allLeaves args kwargs, l.isTF = false) →
      dispatchTypes env (.leaf (.tf self) :: args) kwargs = [self.typeId]) := by
  have hb' : name ∉ env.banned := by simpa using hb
  have hov : is_attr_overidden env self.typeId name = false := by
    unfold is_attr_overidden
    rw [hs, ht]
    simp
  refine ⟨?_, ?_, ?_⟩
  · unfold var_getattr
    rw [if_neg (by simp [hb', ht]), if_neg (by simp [hov]), if_pos hen]
    cases hsrc : self.hasSource
    · rw [if_neg (by simp), ht]
    · rw [if_pos rfl, hs]
  · intro args kwargs
    unfold call_method
    rw [if_pos hen, if_neg (by simp [hov])]
    cases hsrc : self.hasSource
    · rw [if_neg (by simp), ht]
    · rw [if_pos rfl, hs]
  · intro args kwargs h
    have hrel0 : (allLeaves args kwargs).filterMap Leaf.asTF = [] := by
      rw [List.filterMap_eq_nil_iff]
      intro l hl
      have hl' := h l hl
      cases l with
      | tf w => simp [Leaf.isTF] at hl'
      | plain w => rfl
    have hrel : relevantLeaves (.leaf (.tf self) :: args) kwargs = [self] := by
      unfold relevantLeaves
      rw [allLeaves_cons_leaf, List.filterMap_cons]
      simp [Leaf.asTF, hrel0]
    unfold dispatchTypes overloadOrderOf
    rw [hrel]
    rfl

/-- Witness for the amended C8 at `name = m`, `v = 5` in `envW`. -/
theorem claim_C8_amended_witness :
    (envW.enabled = true ∧ envW.banned.contains "m" = false ∧
      envW.tensorAttr "m" = some 5 ∧ envW.staticAttr varA.typeId "m" = some 5) ∧
    (var_getattr envW varA "m" =
      .tfcall ⟨varA.handlerId, varA.typeId, .getter 5, [varA.typeId],
        [.leaf (.tf varA)], []⟩ ∧
    (∀ args kwargs, call_method envW varA "m" args kwargs =
      .dispatch ⟨.plain 5, .leaf (.tf varA) :: args, kwargs⟩) ∧
    (∀ args kwargs, (∀ l ∈ allLeaves args kwargs, l.isTF = false) →
      dispatchTypes envW (.leaf (.tf varA) :: args) kwargs = [varA.typeId])) := by
  have h1 : envW.enabled = true := rfl
  have h2 : envW.banned.contains "m" = false := rfl
  have h3 : envW.tensorAttr "m" = some 5 := rfl
  have h4 : envW.staticAttr varA.typeId "m" = some 5 := rfl
  exact ⟨⟨h1, h2, h3, h4⟩, claim_C8_amended envW varA "m" 5 h1 h2 h3 h4⟩

/-! ### C9 -/

/-- `Nat.digitChar` is injective on decimal digits. -/
theorem digitChar_inj : ∀ a < 10, ∀ b < 10,
    Nat.digitChar a = Nat.digitChar b → a = b := by decide

/-- Mapping `Nat.digitChar` over decimal digit lists is injective. -/
theorem mapDigitChar_inj : ∀ (l1 l2 : List Nat), (∀ d ∈ l1, d < 10) →
    (∀ d ∈ l2, d < 10) → l1.map Nat.digitChar = l2.map Nat.digitChar →
    l1 = l2 := by
  intro l1
  induction l1 with
  | nil =>
    intro l2 _ _ h
    cases l2 with
    | nil => rfl
    | cons b l2 => simp at h
  | cons a l ih =>
    intro l2 h1 h2 h
    cases l2 with
    | nil => simp at h
    | cons b l2 =>
      simp only [List.map_cons, List.cons.injEq] at h
      have hab := digitChar_inj a (h1 a (List.mem_cons_self _ _)) b
        (h2 b (List.mem_cons_self _ _)) h.1
      rw [hab, ih l2 (fun d hd => h1 d (List.mem_cons_of_mem _ hd))
        (fun d hd => h2 d (List.mem_cons_of_mem _ hd)) h.2]

/-- A nonzero number's decimal rendering is never the single character `0`. -/
theorem digits_map_rev_ne_zero_char {n : Nat} (hn : n ≠ 0) :
    ((Nat.digits 10 n).map Nat.digitChar).reverse ≠ ['0'] := by
  intro h
  have hmap : (Nat.digits 10 n).map Nat.digitChar = ['0'] := by
    have hr := congrArg List.reverse h
    simpa using hr
  cases hd : Nat.digits 10 n with
  | nil => rw [hd] at hmap; simp at hmap
  | cons d ds =>
    rw [hd] at hmap
    cases ds with
    | cons d2 ds2 => simp at hmap
    | nil =>
      simp only [List.map_cons, List.map_nil, List.cons.injEq] at hmap
      have hlt : d < 10 := Nat.digits_lt_base (by norm_num)
        (hd ▸ List.mem_cons_self _ _)
      have hd0 : d = 0 := digitChar_inj d hlt 0 (by norm_num) hmap.1
      have hofd := Nat.ofDigits_digits 10 n
      rw [hd, hd0] at hofd
      simp [Nat.ofDigits] at hofd
      exact hn hofd.symm

/-- The decimal rendering of the identity token is injective. -/
theorem decRepr_inj : ∀ m n : Nat, decRepr m = decRepr n → m = n := by
  intro m n h
  have h' : (if m = 0 then ['0'] else ((Nat.digits 10 m).map Nat.digitChar).reverse)
      = (if n = 0 then ['0'] else ((Nat.digits 10 n).map Nat.digitChar).reverse) :=
    congrArg String.data h
  by_cases hm : m = 0 <;> by_cases hn : n = 0
  · rw [hm, hn]
  · rw [if_pos hm, if_neg hn] at h'
    exact absurd h'.symm (digits_map_rev_ne_zero_char hn)
  · rw [if_neg hm, if_pos hn] at h'
    exact absurd h' (digits_map_rev_ne_zero_char hm)
  · rw [if_neg hm, if_neg hn] at h'
    have hmap : (Nat.digits 10 m).map Nat.digitChar
        = (Nat.digits 10 n).map Nat.digitChar := by
      have hr := congrArg List.reverse h'
      simpa using hr
    have hdig := mapDigitChar_inj _ _
      (fun d hd => Nat.digits_lt_base (by norm_num) hd)
      (fun d hd => Nat.digits_lt_base (by norm_num) hd) hmap
    exact Nat.digits_inj_iff.mp hdig

/-- C9: the mangled name is a deterministic function of the type (same type,
same name); distinct type objects with the same declared `__name__` get
distinct mangled names (the identity suffix disambiguates); registering a key
already present in the global scope is a no-op, and registration is
idempotent. -/
theorem claim_C9 (env : Env) :
    (∀ t1 t2 : Nat, t1 = t2 →
      global_mangled_class_name env t1 = global_mangled_class_name env t2) ∧
    (∀ t1 t2 : Nat, env.typeName t1 = env.typeName t2 → t1 ≠ t2 →
      global_mangled_class_name env t1 ≠ global_mangled_class_name env t2) ∧
    (∀ scope t, scope.any (fun p => p.1 == global_mangled_class_name env t) = true →
      registerSubclassType env scope t = scope) ∧
    (∀ scope t, registerSubclassType env (registerSubclassType env scope t) t =
      registerSubclassType env scope t) := by
  refine ⟨?_, ?_, ?_, ?_⟩
  · intro t1 t2 h
    rw [h]
  · intro t1 t2 hn hne h
    apply hne
    unfold global_mangled_class_name at h
    rw [hn] at h
    have hd : ("__subclass_" ++ env.typeName t2 ++ "_").data ++ (decRepr t1).data
        = ("__subclass_" ++ env.typeName t2 ++ "_").data ++ (decRepr t2).data :=
      congrArg String.data h
    have h3 := List.append_cancel_left hd
    have h4 : decRepr t1 = decRepr t2 := congrArg String.mk h3
    exact decRepr_inj _ _ h4
  · intro scope t h
    unfold registerSubclassType
    rw [if_pos h]
  · intro scope t
    by_cases h : scope.any (fun p => p.1 == global_mangled_class_name env t) = true
    · have hinner : registerSubclassType env scope t = scope := by
        unfold registerSubclassType
        rw [if_pos h]
      rw [hinner, hinner]
    · have hinner : registerSubclassType env scope t =
          (global_mangled_class_name env t, t) :: scope := by
        unfold registerSubclassType
        rw [if_neg h]
      rw [hinner]
      unfold registerSubclassType
      rw [if_pos (by simp)]

/-- Witness for C9: the same-named distinct types `0` and `1` in `envW` get
distinct mangled names, and registration into an empty scope is idempotent. -/
theorem claim_C9_witness :
    (envW.typeName 0 = envW.typeName 1 ∧ (0 : Nat) ≠ 1) ∧
    global_mangled_class_name envW 0 ≠ global_mangled_class_name envW 1 ∧
    registerSubclassType envW (registerSubclassType envW [] 0) 0 =
      registerSubclassType envW [] 0 := by
  have h1 : envW.typeName 0 = envW.typeName 1 := rfl
  have h2 : (0 : Nat) ≠ 1 := by decide
  exact ⟨⟨h1, h2⟩, (claim_C9 envW).2.1 0 1 h1 h2, (claim_C9 envW).2.2.2 [] 0⟩

/-- Witness for C10 at the name `ghost`, statically absent from the tracked
type. -/
theorem claim_C10_witness :
    (envW.staticAttr varA.typeId "ghost" = none ∨
      ((envW.staticAttr varA.typeId "ghost").isSome ∧
        envW.tensorAttr "ghost" = none)) ∧
    (is_attr_overidden envW varA.typeId "ghost" = false ∧
      (∀ s, var_getattr envW varA "ghost" ≠
        .err (.overriddenAttributeUnsupported s)) ∧
      (∀ args kwargs s, call_method envW varA "ghost" args kwargs ≠
        .err (.overriddenAttributeUnsupported s))) := by
  have h : envW.staticAttr varA.typeId "ghost" = none ∨
      ((envW.staticAttr varA.typeId "ghost").isSome ∧
        envW.tensorAttr "ghost" = none) := Or.inl rfl
  exact ⟨h, claim_C10 envW varA "ghost" h⟩
